import Mathlib

/-!
A shallow embedding of the sudoku solver `sudoku.py` (repository
`navshaikh/sudoku`), together with theorems checking the natural-language
specification of the solver against the code.

Modelling conventions:
* A Python candidate set (a `set` of digits 1..9) is a `Finset ℕ`.
* The grid (a Python dict with keys 0..80) is a function `Nat → Finset ℕ`;
  only the values at indices 0..80 are ever consulted.
* Python's falsy values are made explicit: `eliminate` returning `False`
  becomes `none`; `reduce_grid`'s test `if not results` is a test for
  `none` or the empty set; `search` returning `False` becomes `none`.
* The process-global variable `max_depth` is threaded explicitly through
  `search` as an extra argument and an extra result component.
* `random.shuffle` is modelled by an arbitrary function
  `sh : List ℕ → List ℕ` applied to the ascending enumeration of the
  candidate set (CPython enumerates small-integer sets in ascending order).
* The `while`/`for` loops, which in the source are bounded (the reduction
  loop strictly decreases the total candidate count on every restart, and
  the search recursion is cut off past depth 81), are written with an
  explicit structural bound so that all definitions compute; lemmas
  `reduceLoop_congr` and `searchAux_congr` show the bound is irrelevant
  in the region the code can reach.
-/

namespace Sudoku

/-- A grid: Python dict from cell index (0..80) to the candidate set. -/
abbrev Grid := Nat → Finset ℕ

/-- The full digit set `{1,...,9}` (Python `set(range(1, 10))`). -/
def fullSet : Finset ℕ := {1, 2, 3, 4, 5, 6, 7, 8, 9}

/-- Assignment `grid[cell] = s` on the functional grid. -/
def updateG (g : Grid) (cell : Nat) (s : Finset ℕ) : Grid :=
  fun i => if i = cell then s else g i

/-- Python `s in '123456789'`: the character is a clue digit. -/
def isClue (c : Char) : Bool :=
  ([ '1', '2', '3', '4', '5', '6', '7', '8', '9'] : List Char).contains c

/-- Python `int(s)` on a digit character. -/
def charToDigit (c : Char) : ℕ := c.toNat - 48

/-- The cell function of `str_to_grid`: a digit character becomes the
singleton candidate set, any other character the full set (when
`fill_possibilities` is set) or the empty set. Out-of-range lookups use a
blank placeholder, which is never a clue. -/
def strGrid (p : List Char) (fill_possibilities : Bool) : Grid :=
  fun ndx =>
    let s := p.getD ndx ' '
    if isClue s then {charToDigit s}
    else if fill_possibilities then fullSet else ∅

/-- Python `str_to_grid(sudoku, fill_possibilities)`: `None` if the string does
not have 81 characters, otherwise the grid of 81 candidate sets. -/
def str_to_grid (p : List Char) (fill_possibilities : Bool) : Option Grid :=
  if p.length ≠ 81 then none else some (strGrid p fill_possibilities)

/-- Python `grid_to_str`: the digit popped from each cell in index order.
CPython's `set.pop` on a small-integer set removes the smallest element,
modelled here as the head of the ascending enumeration. -/
def grid_to_str (g : Grid) : List ℕ :=
  (List.range 81).map (fun ndx => ((g ndx).sort (· ≤ ·)).headD 0)

/-- Python `get_square_indices(row, col)`: the nine indices of the 3x3 square
containing the cell (Python 2 `/` on ints is floor division). -/
def get_square_indices (row col : Nat) : List Nat :=
  let sq_start_ndx := (row / 3) * 9 * 3 + (col / 3) * 3
  ([0, 1, 2, 9, 10, 11, 18, 19, 20] : List Nat).map (fun c => sq_start_ndx + c)

/-- The module-level `adjacents` table, built for `row*9+col`: the list of
other cells in the row, in the column, and in the square, in that order.
Looked up here by cell index, with `row = cell / 9` and `col = cell % 9`
(`list.remove` on the distinct square list is a filter of the cell). -/
def adjacents (cell : Nat) : List Nat × List Nat × List Nat :=
  let row := cell / 9
  let col := cell % 9
  let cells_in_row := (List.range' (row * 9) 9).filter (fun x => x ≠ row * 9 + col)
  let cells_in_col := (List.range' col 9 9).filter (fun x => x ≠ row * 9 + col)
  let cells_in_sq := (get_square_indices row col).filter (fun x => x ≠ row * 9 + col)
  (cells_in_row, cells_in_col, cells_in_sq)

/-- Python `set.union(*args)` over a list of candidate sets. -/
def unionList (l : List (Finset ℕ)) : Finset ℕ :=
  l.foldr (· ∪ ·) ∅

/-- The `for uniqueness in [0, 1, 2]` loop of `eliminate`: for each peer
group in turn, return the unique leftover if there is exactly one,
signal contradiction (`none`, Python `False`) if the group union together
with the cell's candidates misses a digit, and otherwise fall through,
finally returning the candidates unchanged. -/
def eliminateLoop (grid : Grid) (possibilities : Finset ℕ) :
    List (List Nat) → Option (Finset ℕ)
  | [] => some possibilities
  | grp :: rest =>
    let adjacent_values := unionList (grp.map (fun v => grid v))
    let unique_values := possibilities \ adjacent_values
    if unique_values.card = 1 then some unique_values
    else if fullSet ≠ adjacent_values ∪ possibilities then none
    else eliminateLoop grid possibilities rest

/-- Python `eliminate(grid, cell)`: solved cells are returned unchanged; otherwise
the digits of solved peers are removed (when there is at least one solved
peer), a naked single is returned at once, and the row/column/square loop
runs on the reduced candidates. `none` is Python's `False`. -/
def eliminate (grid : Grid) (cell : Nat) : Option (Finset ℕ) :=
  let possibilities := grid cell
  if possibilities.card = 1 then some possibilities
  else
    let adj := adjacents cell
    let cell_adjacents := adj.1 ++ adj.2.1 ++ adj.2.2
    let solved_adjacents_values :=
      (cell_adjacents.filter (fun v => (grid v).card = 1)).map (fun v => grid v)
    let possibilities2 :=
      if solved_adjacents_values.isEmpty then possibilities
      else possibilities \ unionList solved_adjacents_values
    if ¬ solved_adjacents_values.isEmpty ∧ possibilities2.card = 1 then some possibilities2
    else eliminateLoop grid possibilities2 [adj.1, adj.2.1, adj.2.2]

/-- Result of one scan of `reduce_grid`'s `while` loop up to the first
grid change: contradiction, no change over the whole pass, or the grid
with the first reduction applied (after which the source restarts at 0). -/
inductive PassR where
  | fail : PassR
  | noChange : PassR
  | changed : Grid → PassR

/-- One pass of `reduce_grid`'s loop starting at `cell` with `k` cells
left to visit (`k = 81 - cell` at the top). `if not results` in the source
is a Python falsiness test, true for `False` and for the empty set. -/
def onePass (g : Grid) : Nat → Nat → PassR
  | _, 0 => .noChange
  | cell, k + 1 =>
    let n := (g cell).card
    if 1 < n then
      match eliminate g cell with
      | none => .fail
      | some results =>
        if results = ∅ then .fail
        else if results.card < n then .changed (updateG g cell results)
        else onePass g (cell + 1) k
    else onePass g (cell + 1) k

/-- Total number of candidates over the 81 cells; every restart of
`reduce_grid` strictly decreases it, which bounds the loop. -/
def totalCard (g : Grid) : Nat :=
  (Finset.range 81).sum (fun i => (g i).card)

/-- The restart loop of `reduce_grid`, bounded by `fuel`; the bound is
never reached from `reduce_grid` (see `onePass_changed_totalCard` and
`reduceLoop_congr`). -/
def reduceLoop : Nat → Grid → Option Grid
  | 0, _ => none
  | fuel + 1, g =>
    match onePass g 0 81 with
    | .fail => none
    | .noChange => some g
    | .changed g' => reduceLoop fuel g'

/-- Python `reduce_grid(grid)`: eliminate possibilities cell by cell, restarting
from cell 0 after every successful reduction; `none` is Python's `False`. -/
def reduce_grid (g : Grid) : Option Grid :=
  reduceLoop (totalCard g + 1) g

/-- The branching-cell scan of `search` (`for cell in range(0, 81)` with
accumulator `min_cell`, initially `None`). The source's test
`if not min_cell or possibilities < len(grid[min_cell])` is falsy both for
`None` and for cell index 0, reproduced here exactly. -/
def minScanFrom (g : Grid) : Nat → Option Nat → Nat → Option Nat
  | _, acc, 0 => acc
  | cell, acc, k + 1 =>
    let possibilities := (g cell).card
    if 1 < possibilities then
      match acc with
      | none => minScanFrom g (cell + 1) (some cell) k
      | some m =>
        if m = 0 ∨ possibilities < (g m).card then minScanFrom g (cell + 1) (some cell) k
        else minScanFrom g (cell + 1) (some m) k
    else minScanFrom g (cell + 1) acc k

/-- The whole branching-cell scan over cells 0..80. -/
def minScan (g : Grid) : Option Nat :=
  minScanFrom g 0 none 81

/-- Python `search(grid, randomize_traversal, depth)` with the global `max_depth`
threaded as the last argument and returned alongside the result. `fuel`
is a structural recursion bound; `search` below supplies `83 - depth`,
which by `searchAux_congr` is enough, and the `fuel = 0` value coincides
with the depth cutoff there. The candidate loop is a fold that keeps the
first successful branch and threads the global through failed branches,
exactly like the source's `for p in possibilities` loop. -/
def searchAux (sh : List ℕ → List ℕ) :
    Nat → Grid → Bool → Nat → Nat → Option Grid × Nat
  | 0, _, _, depth, gmax => (none, max gmax depth)
  | fuel + 1, grid, randomize_traversal, depth, gmax =>
    let gmax' := max gmax depth
    if 81 < gmax' then (none, gmax')
    else
      match reduce_grid grid with
      | none => (none, gmax')
      | some g' =>
        match minScan g' with
        | none => (some g', gmax')
        | some 0 => (some g', gmax')
        | some (m + 1) =>
          let possibilities := (g' (m + 1)).sort (· ≤ ·)
          let ps := if randomize_traversal then sh possibilities else possibilities
          ps.foldl
            (fun acc p =>
              match acc with
              | (some sol, gm2) => (some sol, gm2)
              | (none, gm2) =>
                searchAux sh fuel (updateG g' (m + 1) {p}) randomize_traversal
                  (depth + 1) gm2)
            (none, gmax')

/-- Wrapper `search` as called by the program: the structural bound `83 - depth`
never runs out before the source's own depth cutoff fires. -/
def search (sh : List ℕ → List ℕ) (grid : Grid) (randomize_traversal : Bool)
    (depth gmax : Nat) : Option Grid × Nat :=
  searchAux sh (83 - depth) grid randomize_traversal depth gmax

/-- The body of `search` past the depth cutoff, written with `search`
itself for the recursive calls; used to state that the cutoff does not
fire when the updated counter is at most 81. -/
def searchCore (sh : List ℕ → List ℕ) (grid : Grid) (randomize_traversal : Bool)
    (depth gmax : Nat) : Option Grid × Nat :=
  let gmax' := max gmax depth
  match reduce_grid grid with
  | none => (none, gmax')
  | some g' =>
    match minScan g' with
    | none => (some g', gmax')
    | some 0 => (some g', gmax')
    | some (m + 1) =>
      let possibilities := (g' (m + 1)).sort (· ≤ ·)
      let ps := if randomize_traversal then sh possibilities else possibilities
      ps.foldl
        (fun acc p =>
          match acc with
          | (some sol, gm2) => (some sol, gm2)
          | (none, gm2) =>
            search sh (updateG g' (m + 1) {p}) randomize_traversal (depth + 1) gm2)
        (none, gmax')

/-- The structured content of an `InvalidSudokuError` message. The square
conflict message `'{0} appears {1}x in a square'` carries no square index,
unlike the row and column messages; the constructors carry exactly the
data interpolated into each format string. -/
inductive SudokuError where
  | wrongLength : Nat → SudokuError
  | rowConflict : Char → Nat → Nat → SudokuError
  | colConflict : Char → Nat → Nat → SudokuError
  | sqConflict : Char → Nat → SudokuError
deriving DecidableEq

/-- Number of positions of the slice holding exactly the character `s`
(`len([l for l, su in enumerate(slice) if s == su])`). -/
def countEq (l : List Char) (s : Char) : Nat :=
  l.countP (fun c => decide (c = s))

/-- Python `sudoku[row*9 : row*9+9]`: the row slice, by index. -/
def rowSlice (p : List Char) (row : Nat) : List Char :=
  (List.range' (row * 9) 9).map (fun j => p.getD j ' ')

/-- Python `sudoku[col :: 9]`: the column slice of an 81-character string. -/
def colSlice (p : List Char) (col : Nat) : List Char :=
  (List.range' col 9 9).map (fun j => p.getD j ' ')

/-- Python `''.join(sudoku[x] for x in get_square_indices(row, col))`. -/
def sqSlice (p : List Char) (row col : Nat) : List Char :=
  (get_square_indices row col).map (fun j => p.getD j ' ')

/-- The body of `validate`'s scan at one index: for a clue character,
check the row, then the column, then the square, failing on the first
duplicated digit with the data of the corresponding message. -/
def checkCell (p : List Char) (ndx : Nat) : Option SudokuError :=
  let s := p.getD ndx ' '
  if isClue s then
    let row := ndx / 9
    let col := ndx % 9
    let row_occurrences := countEq (rowSlice p row) s
    if 1 < row_occurrences then some (.rowConflict s row_occurrences (row + 1))
    else
      let col_occurrences := countEq (colSlice p col) s
      if 1 < col_occurrences then some (.colConflict s col_occurrences (col + 1))
      else
        let sq_occurrences := countEq (sqSlice p row col) s
        if 1 < sq_occurrences then some (.sqConflict s sq_occurrences)
        else none
  else none

/-- The scan of `validate` over indices `ndx, ndx+1, ...` with `k` cells left,
stopping at the first conflict. -/
def validateFrom (p : List Char) : Nat → Nat → Except SudokuError Bool
  | _, 0 => .ok true
  | ndx, k + 1 =>
    match checkCell p ndx with
    | some e => .error e
    | none => validateFrom p (ndx + 1) k

/-- Python `validate(sudoku)`: length check, then the in-order scan of all 81
cells; returns `True` when no conflict is found. -/
def validate (p : List Char) : Except SudokuError Bool :=
  if p.length ≠ 81 then .error (.wrongLength p.length)
  else validateFrom p 0 81

/-- Python `solve(sudoku, randomize_traversal)`: validate, build the grid with
full candidate sets, search from depth 0 (the global counter starts at 0),
and serialize the result. The source applies `grid_to_str` to `search`'s
result unconditionally, so when `search` returns `False` it evaluates
`False[0]` and dies with a `TypeError`; the `Option.map` here keeps that
failure value visible instead (see the theorem for claim C2). -/
def solve (sh : List ℕ → List ℕ) (p : List Char) (randomize_traversal : Bool) :
    Except SudokuError (Option (List ℕ)) :=
  match validate p with
  | .error e => .error e
  | .ok _ =>
    let grid := (str_to_grid p true).getD (fun _ => ∅)
    .ok ((search sh grid randomize_traversal 0 0).1.map grid_to_str)

/-!  Definitions written from the specification's words (for the
refinement claim about `eliminate`, C8).  -/

/-- Spec wording, step 1: "Compute the union of all peer groups
(row ∪ column ∪ box, deduplicated). Collect peer cells currently solved
(size 1) and subtract their digits from this cell's candidates." -/
def solvedPeerDigits (grid : Grid) (cell : Nat) : Finset ℕ :=
  let adj := adjacents cell
  let peers := (adj.1 ++ adj.2.1 ++ adj.2.2).dedup
  unionList ((peers.filter (fun v => (grid v).card = 1)).map (fun v => grid v))

/-- Spec wording, step 2: "for each of the three peer groups independently
(row, then column, then box): compute the union of candidate sets across
that peer group; subtract it from this cell's (already reduced)
candidates. If exactly one digit remains unique to this cell within that
group, return it immediately ... For each group checked, also verify that
the union of (this cell's reduced candidates ∪ that peer group's union)
equals the full digit set {1..9}; if not, ... signal failure immediately." -/
def hiddenSpecLoop (grid : Grid) (reduced : Finset ℕ) :
    List (List Nat) → Option (Finset ℕ)
  | [] => some reduced
  | grp :: rest =>
    let groupUnion := unionList (grp.map (fun v => grid v))
    let uniq := reduced \ groupUnion
    if uniq.card = 1 then some uniq
    else if reduced ∪ groupUnion ≠ fullSet then none
    else hiddenSpecLoop grid reduced rest

/-- The elimination step as the specification describes it, for a cell
with more than one candidate: subtract the solved peers' digits, return a
naked single immediately, otherwise run the hidden-single/contradiction
loop in row, column, box order, and if nothing fires return the
step-1-reduced candidates unchanged. -/
def eliminateSpec (grid : Grid) (cell : Nat) : Option (Finset ℕ) :=
  let adj := adjacents cell
  let reduced := grid cell \ solvedPeerDigits grid cell
  if reduced.card = 1 then some reduced
  else hiddenSpecLoop grid reduced [adj.1, adj.2.1, adj.2.2]

/-!  Concrete data used by the counterexamples and witnesses.  -/

/-- The identity stand-in for `random.shuffle` (unused when
`randomize_traversal` is false). -/
def idShuffle : List ℕ → List ℕ := fun l => l

/-- The grid with every cell solved to `{1}`. -/
def gAll1 : Grid := fun _ => {1}

/-- Solved digits of `gC1` (entry 0 is a placeholder for the one
multi-candidate cell). -/
def digitsC1 : List ℕ :=
  [0, 1, 2, 3, 4, 5, 6, 7, 7,
   3, 5, 6, 1, 1, 1, 1, 1, 1,
   4, 7, 7, 1, 1, 1, 1, 1, 1,
   1, 1, 1, 1, 1, 1, 1, 1, 1,
   2, 1, 1, 1, 1, 1, 1, 1, 1,
   5, 1, 1, 1, 1, 1, 1, 1, 1,
   6, 1, 1, 1, 1, 1, 1, 1, 1,
   7, 1, 1, 1, 1, 1, 1, 1, 1,
   7, 1, 1, 1, 1, 1, 1, 1, 1]

/-- A grid on which `reduce_grid` is a no-op, whose only multi-candidate
cell is cell 0 (candidates `{8, 9}`): each peer group of cell 0 has solved
digits exactly `{1,...,7}`, so no naked single, no hidden single and no
contradiction is detected. -/
def gC1 : Grid := fun i =>
  if i = 0 then {8, 9} else {digitsC1.getD i 1}

/-- Solved digits of `gC3` (entries 0 and 5 are placeholders for the two
multi-candidate cells). -/
def digitsC3 : List ℕ :=
  [0, 1, 2, 3, 4, 0, 5, 6, 7,
   7, 3, 4, 5, 6, 1, 1, 1, 1,
   2, 5, 6, 7, 7, 2, 1, 1, 1,
   1, 1, 1, 1, 1, 3, 1, 1, 1,
   3, 1, 1, 1, 1, 4, 1, 1, 1,
   4, 1, 1, 1, 1, 5, 1, 1, 1,
   5, 1, 1, 1, 1, 6, 1, 1, 1,
   6, 1, 1, 1, 1, 7, 1, 1, 1,
   7, 1, 1, 1, 1, 7, 1, 1, 1]

/-- A grid on which `reduce_grid` is a no-op with exactly two
multi-candidate cells, 0 and 5, both with two candidates `{8, 9}`. -/
def gC3 : Grid := fun i =>
  if i = 0 ∨ i = 5 then {8, 9} else {digitsC3.getD i 1}

/-- A structurally valid puzzle with no solution: row 1 forces cell 8 to
be 9, but its column already holds a 9 at index 17. -/
def p2 : List Char := "12345678.........9".toList ++ List.replicate 63 '.'

/-- The grid `solve` builds for `p2`. -/
def gP2 : Grid := strGrid p2 true

/-- Fixture `'1..1' + 77 blanks`: a row conflict in row 1. -/
def pRow : List Char := "1..1".toList ++ List.replicate 77 '.'

/-- Two 9s in the first square (indices 0 and 10). -/
def pBoxA : List Char := "9.........9".toList ++ List.replicate 70 '.'

/-- Two 9s in the last square (indices 70 and 80). -/
def pBoxB : List Char := List.replicate 70 '.' ++ "9.........9".toList

/-- The all-blank puzzle. -/
def dots81 : List Char := List.replicate 81 '.'

/-- The all-blank puzzle with one blank replaced by a letter. -/
def pLetter : List Char := 'A' :: List.replicate 80 '.'

/-- A grid whose only multi-candidate cell is cell 1. -/
def gC3W : Grid := fun i => if i = 1 then {8, 9} else {1}

/-- The grid with full candidates everywhere. -/
def gFull : Grid := fun _ => fullSet

/-! ### Basic lemmas -/

theorem unionList_cons (s : Finset ℕ) (t : List (Finset ℕ)) :
    unionList (s :: t) = s ∪ unionList t := rfl

theorem mem_unionList {a : ℕ} {l : List (Finset ℕ)} :
    a ∈ unionList l ↔ ∃ s ∈ l, a ∈ s := by
  induction l with
  | nil => simp [unionList]
  | cons s t ih => rw [unionList_cons]; simp [Finset.mem_union, ih]

theorem updateG_self (g : Grid) (cell : Nat) (s : Finset ℕ) :
    updateG g cell s cell = s := by
  simp [updateG]

theorem updateG_ne (g : Grid) (cell : Nat) (s : Finset ℕ) {i : Nat} (h : i ≠ cell) :
    updateG g cell s i = g i := by
  simp [updateG, h]

theorem totalCard_updateG {g : Grid} {cell : Nat} {s : Finset ℕ} (h : cell < 81) :
    totalCard (updateG g cell s) + (g cell).card = totalCard g + s.card := by
  unfold totalCard
  have hc : cell ∈ Finset.range 81 := Finset.mem_range.mpr h
  rw [Finset.sum_eq_sum_diff_singleton_add hc (fun i => ((updateG g cell s) i).card),
    Finset.sum_eq_sum_diff_singleton_add hc (fun i => (g i).card)]
  have hcongr : ∀ x ∈ Finset.range 81 \ {cell},
      ((updateG g cell s) x).card = (g x).card := by
    intro x hx
    rcases Finset.mem_sdiff.mp hx with ⟨-, hne⟩
    rw [updateG_ne]
    exact fun hh => hne (Finset.mem_singleton.mpr hh)
  rw [Finset.sum_congr rfl hcongr, updateG_self]
  omega

/-! ### `eliminate` lemmas -/

theorem eliminateLoop_subset {g : Grid} {poss : Finset ℕ} :
    ∀ {l s}, eliminateLoop g poss l = some s → s ⊆ poss := by
  intro l
  induction l with
  | nil =>
    intro s h
    simp only [eliminateLoop, Option.some.injEq] at h
    exact h ▸ Finset.Subset.refl _
  | cons grp rest ih =>
    intro s h
    simp only [eliminateLoop] at h
    split at h
    · exact (Option.some.injEq _ _ ▸ h) ▸ Finset.sdiff_subset
    · split at h
      · exact absurd h (by simp)
      · exact ih h

theorem eliminate_subset {g : Grid} {cell : Nat} {s : Finset ℕ}
    (h : eliminate g cell = some s) : s ⊆ g cell := by
  simp only [eliminate] at h
  split_ifs at h
  all_goals
    first
    | (cases h; first | exact Finset.Subset.refl _ | exact Finset.sdiff_subset)
    | exact eliminateLoop_subset h
    | exact (eliminateLoop_subset h).trans Finset.sdiff_subset

/-! ### `onePass` and `reduceLoop` lemmas -/

theorem onePass_changed_subset {g : Grid} :
    ∀ {k cell g'}, onePass g cell k = .changed g' → ∀ i, g' i ⊆ g i := by
  intro k
  induction k with
  | zero => intro cell g' h; simp [onePass] at h
  | succ k ih =>
    intro cell g' h i
    simp only [onePass] at h
    split at h
    · split at h
      · exact absurd h (by simp)
      · rename_i results helim
        split at h
        · exact absurd h (by simp)
        · split at h
          · cases h
            by_cases hic : i = cell
            · subst hic
              rw [updateG_self]
              exact eliminate_subset helim
            · rw [updateG_ne _ _ _ hic]
          · exact ih h i
    · exact ih h i

theorem onePass_changed_nonempty {g : Grid} :
    ∀ {k cell g'}, onePass g cell k = .changed g' →
      (∀ i, i < 81 → g i ≠ ∅) → ∀ i, i < 81 → g' i ≠ ∅ := by
  intro k
  induction k with
  | zero => intro cell g' h; simp [onePass] at h
  | succ k ih =>
    intro cell g' h hne i hi
    simp only [onePass] at h
    split at h
    · split at h
      · exact absurd h (by simp)
      · rename_i results helim
        split at h
        · exact absurd h (by simp)
        · rename_i hres
          split at h
          · cases h
            by_cases hic : i = cell
            · subst hic; rw [updateG_self]; exact hres
            · rw [updateG_ne _ _ _ hic]; exact hne i hi
          · exact ih h hne i hi
    · exact ih h hne i hi

theorem onePass_changed_totalCard {g : Grid} :
    ∀ {k cell g'}, cell + k ≤ 81 → onePass g cell k = .changed g' →
      totalCard g' < totalCard g := by
  intro k
  induction k with
  | zero => intro cell g' _ h; simp [onePass] at h
  | succ k ih =>
    intro cell g' hk h
    simp only [onePass] at h
    split at h
    · rename_i hmulti
      split at h
      · exact absurd h (by simp)
      · rename_i results helim
        split at h
        · exact absurd h (by simp)
        · split at h
          · rename_i hlt
            cases h
            have hcell : cell < 81 := by omega
            have := totalCard_updateG (g := g) (s := results) hcell
            omega
          · exact ih (by omega) h
    · exact ih (by omega) h

theorem reduceLoop_subset :
    ∀ {fuel g g'}, reduceLoop fuel g = some g' → ∀ i, g' i ⊆ g i := by
  intro fuel
  induction fuel with
  | zero => intro g g' h; simp [reduceLoop] at h
  | succ f ih =>
    intro g g' h i
    rw [reduceLoop] at h
    split at h
    · exact absurd h (by simp)
    · cases h; exact Finset.Subset.refl _
    · rename_i g0 hpass
      exact (ih h i).trans (onePass_changed_subset hpass i)

theorem reduceLoop_nonempty :
    ∀ {fuel g g'}, reduceLoop fuel g = some g' →
      (∀ i, i < 81 → g i ≠ ∅) → ∀ i, i < 81 → g' i ≠ ∅ := by
  intro fuel
  induction fuel with
  | zero => intro g g' h; simp [reduceLoop] at h
  | succ f ih =>
    intro g g' h hne
    rw [reduceLoop] at h
    split at h
    · exact absurd h (by simp)
    · cases h; exact hne
    · rename_i g0 hpass
      exact ih h (onePass_changed_nonempty hpass hne)

/-- The structural bound used in `reduce_grid` is irrelevant: any two
bounds exceeding the total candidate count give the same result, so
`reduce_grid` computes the unbounded restart loop of the source. -/
theorem reduceLoop_congr :
    ∀ {f1 g f2}, totalCard g < f1 → totalCard g < f2 →
      reduceLoop f1 g = reduceLoop f2 g := by
  intro f1
  induction f1 with
  | zero => intro g f2 h1; omega
  | succ f ih =>
    intro g f2 h1 h2
    obtain ⟨f2', rfl⟩ : ∃ k, f2 = k + 1 := ⟨f2 - 1, by omega⟩
    rw [reduceLoop, reduceLoop]
    cases hp : onePass g 0 81 with
    | fail => rfl
    | noChange => rfl
    | changed g0 =>
      have hdec := onePass_changed_totalCard (by omega) hp
      exact ih (by omega) (by omega)

/-! ### Branching-cell scan lemmas -/

theorem msf_empty {g : Grid} :
    ∀ {k c a}, (a = none ∨ a = some 0) →
      (minScanFrom g c a k = a ∧
        ∀ j, c ≤ j → j < c + k → ¬ 1 < (g j).card) ∨
      (∃ f, c ≤ f ∧ f < c + k ∧ 1 < (g f).card ∧
        (∀ j, c ≤ j → j < f → ¬ 1 < (g j).card) ∧
        minScanFrom g c a k = minScanFrom g (f + 1) (some f) (c + k - (f + 1))) := by
  intro k
  induction k with
  | zero =>
    intro cell acc _
    exact Or.inl ⟨rfl, fun j h1 h2 => absurd h2 (by omega)⟩
  | succ k ih =>
    intro cell acc hacc
    by_cases hm : 1 < (g cell).card
    · refine Or.inr ⟨cell, le_refl _, by omega, hm, fun j h1 h2 => absurd h2 (by omega), ?_⟩
      have harith : cell + (k + 1) - (cell + 1) = k := by omega
      rw [harith]
      rcases hacc with rfl | rfl
      · simp only [minScanFrom, if_pos hm]
      · simp only [minScanFrom, if_pos hm, true_or, if_true]
    · have hskip : minScanFrom g cell acc (k + 1) = minScanFrom g (cell + 1) acc k := by
        simp only [minScanFrom, if_neg hm]
      rcases ih (c := cell + 1) hacc with ⟨heq, hno⟩ | ⟨f, h1, h2, h3, h4, h5⟩
      · refine Or.inl ⟨hskip.trans heq, fun j hj1 hj2 => ?_⟩
        rcases Nat.eq_or_lt_of_le hj1 with rfl | hj1'
        · exact hm
        · exact hno j (by omega) (by omega)
      · refine Or.inr ⟨f, by omega, by omega, h3, fun j hj1 hj2 => ?_, ?_⟩
        · rcases Nat.eq_or_lt_of_le hj1 with rfl | hj1'
          · exact hm
          · exact h4 j (by omega) hj2
        · rw [hskip, h5]
          congr 1
          omega

theorem msf_run {g : Grid} :
    ∀ {k s m}, 1 ≤ s → 1 ≤ m → 1 < (g m).card →
      ∃ c, minScanFrom g s (some m) k = some c ∧ 1 ≤ c ∧ 1 < (g c).card ∧
        (g c).card ≤ (g m).card ∧
        (∀ j, s ≤ j → j < s + k → 1 < (g j).card → (g c).card ≤ (g j).card) ∧
        (c = m ∨ (s ≤ c ∧ c < s + k ∧ (g c).card < (g m).card ∧
          ∀ j, s ≤ j → j < c → 1 < (g j).card → (g c).card < (g j).card)) := by
  intro k
  induction k with
  | zero =>
    intro cell m _ hm1 hm2
    exact ⟨m, rfl, hm1, hm2, le_refl _,
      fun j h1 h2 => absurd h2 (by omega), Or.inl rfl⟩
  | succ k ih =>
    intro cell m hcell hm1 hm2
    by_cases hmulti : 1 < (g cell).card
    · by_cases hlt : (g cell).card < (g m).card
      · have hstep : minScanFrom g cell (some m) (k + 1) =
            minScanFrom g (cell + 1) (some cell) k := by
          simp only [minScanFrom, if_pos hmulti]
          rw [if_pos (Or.inr hlt)]
        obtain ⟨c, hc0, hc1, hc2, hc3, hc4, hc5⟩ :=
          ih (s := cell + 1) (m := cell) (by omega) (by omega) hmulti
        refine ⟨c, hstep.trans hc0, hc1, hc2, by omega, ?_, Or.inr ?_⟩
        · intro j hj1 hj2 hj3
          rcases Nat.eq_or_lt_of_le hj1 with rfl | hj1'
          · omega
          · exact hc4 j (by omega) (by omega) hj3
        · have hcrange : cell ≤ c ∧ c < cell + (k + 1) := by
            rcases hc5 with rfl | ⟨ha, hb, -, -⟩
            · exact ⟨le_refl _, by omega⟩
            · exact ⟨by omega, by omega⟩
          refine ⟨hcrange.1, hcrange.2, by omega, ?_⟩
          intro j hj1 hj2 hj3
          rcases Nat.eq_or_lt_of_le hj1 with rfl | hj1'
          · rcases hc5 with rfl | ⟨-, -, hcc, -⟩
            · omega
            · exact hcc
          · rcases hc5 with rfl | ⟨-, -, -, hstrict⟩
            · omega
            · exact hstrict j (by omega) hj2 hj3
      · have hstep : minScanFrom g cell (some m) (k + 1) =
            minScanFrom g (cell + 1) (some m) k := by
          simp only [minScanFrom, if_pos hmulti]
          rw [if_neg]
          push_neg
          exact ⟨by omega, by omega⟩
        obtain ⟨c, hc0, hc1, hc2, hc3, hc4, hc5⟩ :=
          ih (s := cell + 1) (m := m) (by omega) hm1 hm2
        refine ⟨c, hstep.trans hc0, hc1, hc2, hc3, ?_, ?_⟩
        · intro j hj1 hj2 hj3
          rcases Nat.eq_or_lt_of_le hj1 with rfl | hj1'
          · omega
          · exact hc4 j (by omega) (by omega) hj3
        · rcases hc5 with rfl | ⟨ha, hb, hcc, hstrict⟩
          · exact Or.inl rfl
          · refine Or.inr ⟨by omega, by omega, hcc, ?_⟩
            intro j hj1 hj2 hj3
            rcases Nat.eq_or_lt_of_le hj1 with rfl | hj1'
            · omega
            · exact hstrict j (by omega) hj2 hj3
    · have hstep : minScanFrom g cell (some m) (k + 1) =
          minScanFrom g (cell + 1) (some m) k := by
        simp only [minScanFrom, if_neg hmulti]
      obtain ⟨c, hc0, hc1, hc2, hc3, hc4, hc5⟩ :=
        ih (s := cell + 1) (m := m) (by omega) hm1 hm2
      refine ⟨c, hstep.trans hc0, hc1, hc2, hc3, ?_, ?_⟩
      · intro j hj1 hj2 hj3
        rcases Nat.eq_or_lt_of_le hj1 with rfl | hj1'
        · exact absurd hj3 hmulti
        · exact hc4 j (by omega) (by omega) hj3
      · rcases hc5 with rfl | ⟨ha, hb, hcc, hstrict⟩
        · exact Or.inl rfl
        · refine Or.inr ⟨by omega, by omega, hcc, ?_⟩
          intro j hj1 hj2 hj3
          rcases Nat.eq_or_lt_of_le hj1 with rfl | hj1'
          · exact absurd hj3 hmulti
          · exact hstrict j (by omega) hj2 hj3

/-- Complete description of the branching-cell scan: it answers `none`
exactly on grids with no multi-candidate cell, `some 0` when cell 0 is the
only multi-candidate cell, and otherwise picks, among the multi-candidate
cells of index at least 1, the lowest-indexed one achieving their minimum
candidate count. -/
theorem minScan_cases (g : Grid) :
    (minScan g = none ∧ ∀ j, j < 81 → ¬ 1 < (g j).card) ∨
    (minScan g = some 0 ∧ 1 < (g 0).card ∧
      ∀ j, 1 ≤ j → j < 81 → ¬ 1 < (g j).card) ∨
    (∃ c, minScan g = some c ∧ 1 ≤ c ∧ c < 81 ∧ 1 < (g c).card ∧
      (∀ j, 1 ≤ j → j < 81 → 1 < (g j).card → (g c).card ≤ (g j).card) ∧
      (∀ j, 1 ≤ j → j < c → 1 < (g j).card → (g c).card < (g j).card)) := by
  unfold minScan
  rcases msf_empty (g := g) (k := 81) (c := 0) (a := none) (Or.inl rfl) with
    ⟨heq, hno⟩ | ⟨f, -, hf81, hfm, hpre, heq⟩
  · exact Or.inl ⟨heq, fun j hj => hno j (by omega) (by omega)⟩
  · rcases Nat.eq_zero_or_pos f with rfl | hf1
    · rcases msf_empty (g := g) (k := 81 - 1) (c := 1) (a := some 0) (Or.inr rfl) with
        ⟨heq2, hno2⟩ | ⟨f', hf'1, hf'81, hf'm, hpre2, heq2⟩
      · refine Or.inr (Or.inl ⟨heq.trans heq2, hfm, fun j hj1 hj2 => ?_⟩)
        exact hno2 j hj1 (by omega)
      · obtain ⟨c, hc0, hc1, hc2, hc3, hc4, hc5⟩ :=
          msf_run (g := g) (k := 1 + (81 - 1) - (f' + 1)) (s := f' + 1) (m := f')
            (by omega) (by omega) hf'm
        refine Or.inr (Or.inr ⟨c, (heq.trans heq2).trans hc0, hc1, ?_, hc2, ?_, ?_⟩)
        · rcases hc5 with rfl | ⟨-, hb, -, -⟩ <;> omega
        · intro j hj1 hj2 hj3
          rcases lt_trichotomy j f' with hj | rfl | hj
          · exact absurd hj3 (hpre2 j hj1 hj)
          · rcases hc5 with rfl | ⟨-, -, hcc, -⟩
            · exact le_refl _
            · exact le_of_lt hcc
          · exact hc4 j (by omega) (by omega) hj3
        · intro j hj1 hj2 hj3
          rcases hc5 with rfl | ⟨ha, hb, hcc, hstrict⟩
          · exact absurd hj3 (hpre2 j hj1 hj2)
          · rcases lt_trichotomy j f' with hj | rfl | hj
            · exact absurd hj3 (hpre2 j hj1 hj)
            · exact hcc
            · exact hstrict j (by omega) hj2 hj3
    · obtain ⟨c, hc0, hc1, hc2, hc3, hc4, hc5⟩ :=
        msf_run (g := g) (k := 0 + 81 - (f + 1)) (s := f + 1) (m := f)
          (by omega) hf1 hfm
      refine Or.inr (Or.inr ⟨c, heq.trans hc0, hc1, ?_, hc2, ?_, ?_⟩)
      · rcases hc5 with rfl | ⟨-, hb, -, -⟩ <;> omega
      · intro j hj1 hj2 hj3
        rcases lt_trichotomy j f with hj | rfl | hj
        · exact absurd hj3 (hpre j (by omega) hj)
        · rcases hc5 with rfl | ⟨-, -, hcc, -⟩
          · exact le_refl _
          · exact le_of_lt hcc
        · exact hc4 j (by omega) (by omega) hj3
      · intro j hj1 hj2 hj3
        rcases hc5 with rfl | ⟨ha, hb, hcc, hstrict⟩
        · exact absurd hj3 (hpre j (by omega) hj2)
        · rcases lt_trichotomy j f with hj | rfl | hj
          · exact absurd hj3 (hpre j (by omega) hj)
          · exact hcc
          · exact hstrict j (by omega) hj2 hj3

theorem reduce_grid_subset {g g' : Grid} (h : reduce_grid g = some g') :
    ∀ i, g' i ⊆ g i :=
  reduceLoop_subset h

theorem reduce_grid_nonempty {g g' : Grid} (h : reduce_grid g = some g')
    (hne : ∀ i, i < 81 → g i ≠ ∅) : ∀ i, i < 81 → g' i ≠ ∅ :=
  reduceLoop_nonempty h hne

/-! ### `search` lemmas -/

/-- The candidate loop keeps the first successful branch: a successful
fold result is the incoming accumulator or comes from one branch. -/
theorem foldl_first_some (F : Nat → ℕ → Option Grid × Nat) :
    ∀ (ps : List ℕ) (acc : Option Grid × Nat) {sol : Grid} {gm2 : Nat},
      ps.foldl
        (fun acc p =>
          match acc with
          | (some s, gm) => (some s, gm)
          | (none, gm) => F gm p) acc = (some sol, gm2) →
      acc = (some sol, gm2) ∨ ∃ p ∈ ps, ∃ gm0, F gm0 p = (some sol, gm2) := by
  intro ps
  induction ps with
  | nil => intro acc sol gm2 h; exact Or.inl h
  | cons p rest ih =>
    intro acc sol gm2 h
    obtain ⟨o, gmx⟩ := acc
    cases o with
    | some s =>
      rcases ih _ h with heq | ⟨p', hp', hex⟩
      · exact Or.inl heq
      · exact Or.inr ⟨p', List.mem_cons_of_mem _ hp', hex⟩
    | none =>
      rcases ih _ h with heq | ⟨p', hp', hex⟩
      · exact Or.inr ⟨p, List.mem_cons_self _ _, gmx, heq⟩
      · exact Or.inr ⟨p', List.mem_cons_of_mem _ hp', hex⟩

/-- The structural bound of `searchAux` is irrelevant as long as it is at
least `83 - depth`: with such a bound the recursion is stopped by the
source's own depth cutoff, never by the bound. -/
theorem searchAux_congr {sh : List ℕ → List ℕ} :
    ∀ {f1 f2 : Nat} {g : Grid} {r : Bool} {d gm : Nat},
      83 ≤ f1 + d → 83 ≤ f2 + d →
      searchAux sh f1 g r d gm = searchAux sh f2 g r d gm := by
  intro f1
  induction f1 with
  | zero =>
    intro f2 g r d gm h1 h2
    cases f2 with
    | zero => rfl
    | succ f2' =>
      have hcut : 81 < max gm d := by
        have := le_max_right gm d
        omega
      simp only [searchAux]
      rw [if_pos hcut]
  | succ f1' ih =>
    intro f2 g r d gm h1 h2
    cases f2 with
    | zero =>
      have hcut : 81 < max gm d := by
        have := le_max_right gm d
        omega
      simp only [searchAux]
      rw [if_pos hcut]
    | succ f2' =>
      simp only [searchAux]
      by_cases hcut : 81 < max gm d
      · rw [if_pos hcut, if_pos hcut]
      · rw [if_neg hcut, if_neg hcut]
        split
        · rfl
        · rename_i g' _
          split
          · rfl
          · rfl
          · rename_i m' _
            have hstep :
                (fun (acc : Option Grid × Nat) (p : ℕ) =>
                  match acc with
                  | (some sol, gm2) => (some sol, gm2)
                  | (none, gm2) =>
                    searchAux sh f1' (updateG g' (m' + 1) {p}) r (d + 1) gm2) =
                (fun (acc : Option Grid × Nat) (p : ℕ) =>
                  match acc with
                  | (some sol, gm2) => (some sol, gm2)
                  | (none, gm2) =>
                    searchAux sh f2' (updateG g' (m' + 1) {p}) r (d + 1) gm2) := by
              funext acc p
              obtain ⟨o, gmx⟩ := acc
              cases o with
              | some s => rfl
              | none => exact ih (by omega) (by omega)
            rw [hstep]

/-- Any grid `searchAux` returns as a solution has exactly one candidate
in every cell of index 1..80 and a non-empty candidate set everywhere
(given a grid with non-empty candidate sets). -/
theorem searchAux_success {sh : List ℕ → List ℕ} {r : Bool} :
    ∀ {f : Nat} {g : Grid} {d gm : Nat} {sol : Grid} {gm2 : Nat},
      (∀ i, i < 81 → g i ≠ ∅) →
      searchAux sh f g r d gm = (some sol, gm2) →
      (∀ i, i < 81 → sol i ≠ ∅) ∧
        ∀ i, 1 ≤ i → i < 81 → (sol i).card = 1 := by
  intro f
  induction f with
  | zero =>
    intro g d gm sol gm2 _ h
    exact absurd h (by simp [searchAux])
  | succ f ih =>
    intro g d gm sol gm2 hne h
    simp only [searchAux] at h
    split at h
    · exact absurd h (by simp)
    · split at h
      · exact absurd h (by simp)
      · rename_i g' hred
        have hne' : ∀ i, i < 81 → g' i ≠ ∅ := reduce_grid_nonempty hred hne
        split at h
        · rename_i hms
          cases h
          refine ⟨hne', fun i hi1 hi2 => ?_⟩
          rcases minScan_cases sol with ⟨-, hcard⟩ | ⟨habs, -⟩ | ⟨c, habs, -⟩
          · have h0 : (sol i).card ≠ 0 := by
              simpa [Finset.card_eq_zero] using hne' i hi2
            have := hcard i hi2
            omega
          · rw [hms] at habs; exact absurd habs (by simp)
          · rw [hms] at habs; exact absurd habs (by simp)
        · rename_i hms
          cases h
          refine ⟨hne', fun i hi1 hi2 => ?_⟩
          rcases minScan_cases sol with ⟨habs, -⟩ | ⟨-, -, hcard⟩ | ⟨c, habs, hc1, -⟩
          · rw [hms] at habs; exact absurd habs (by simp)
          · have h0 : (sol i).card ≠ 0 := by
              simpa [Finset.card_eq_zero] using hne' i hi2
            have := hcard i hi1 hi2
            omega
          · rw [hms] at habs
            have : c = 0 := by simpa using habs.symm
            omega
        · rename_i m hms
          rcases foldl_first_some
              (fun gm0 p => searchAux sh f (updateG g' (m + 1) {p}) r (d + 1) gm0)
              _ _ h with heq | ⟨p, -, gm0, hex⟩
          · exact absurd heq (by simp)
          · refine ih ?_ hex
            intro i hi
            by_cases him : i = m + 1
            · subst him
              rw [updateG_self]
              simp
            · rw [updateG_ne _ _ _ him]
              exact hne' i hi

theorem search_success {sh : List ℕ → List ℕ} {g : Grid} {r : Bool}
    {d gm : Nat} {sol : Grid} {gm2 : Nat}
    (hne : ∀ i, i < 81 → g i ≠ ∅)
    (h : search sh g r d gm = (some sol, gm2)) :
    (∀ i, i < 81 → sol i ≠ ∅) ∧ ∀ i, 1 ≤ i → i < 81 → (sol i).card = 1 :=
  searchAux_success hne h

/-- A call whose own depth exceeds 81 aborts at once, for every grid. -/
theorem search_depth_cutoff {sh : List ℕ → List ℕ} {g : Grid} {r : Bool}
    {d gm : Nat} (h : 81 < d) : search sh g r d gm = (none, max gm d) := by
  unfold search
  by_cases hd : d ≤ 82
  · have h83 : 83 - d = (82 - d) + 1 := by omega
    rw [h83]
    simp only [searchAux]
    rw [if_pos (lt_of_lt_of_le h (le_max_right gm d))]
  · have h83 : 83 - d = 0 := by omega
    rw [h83]
    rfl

/-- A call whose incoming counter exceeds 81 also aborts at once, whatever
its own depth: the cutoff reads the updated global counter, not `depth`. -/
theorem search_gmax_cutoff {sh : List ℕ → List ℕ} {g : Grid} {r : Bool}
    {d gm : Nat} (h : 81 < gm) : search sh g r d gm = (none, max gm d) := by
  unfold search
  by_cases hd : d ≤ 82
  · have h83 : 83 - d = (82 - d) + 1 := by omega
    rw [h83]
    simp only [searchAux]
    rw [if_pos (lt_of_lt_of_le h (le_max_left gm d))]
  · have h83 : 83 - d = 0 := by omega
    rw [h83]
    rfl

/-- When the updated counter is at most 81 the cutoff does not fire:
`search` runs its body (reduction, scan, branching). -/
theorem search_no_cutoff {sh : List ℕ → List ℕ} {g : Grid} {r : Bool}
    {d gm : Nat} (h : max gm d ≤ 81) :
    search sh g r d gm = searchCore sh g r d gm := by
  have hd : d ≤ 81 := le_trans (le_max_right gm d) h
  unfold search searchCore
  have h83 : 83 - d = (82 - d) + 1 := by omega
  rw [h83]
  simp only [searchAux, search]
  rw [if_neg (by omega : ¬ 81 < max gm d)]
  have hfu : (83 : Nat) - (d + 1) = 82 - d := by omega
  simp only [hfu]

/-! ### `validate` lemmas -/

theorem validateFrom_error {p : List Char} :
    ∀ {k ndx e}, validateFrom p ndx k = .error e →
      ∃ j, ndx ≤ j ∧ j < ndx + k ∧ checkCell p j = some e := by
  intro k
  induction k with
  | zero => intro ndx e h; exact absurd h (by simp [validateFrom])
  | succ k ih =>
    intro ndx e h
    rw [validateFrom] at h
    split at h
    · rename_i e' hchk
      cases h
      exact ⟨ndx, le_refl _, by omega, hchk⟩
    · obtain ⟨j, hj1, hj2, hj3⟩ := ih h
      exact ⟨j, by omega, by omega, hj3⟩

theorem checkCell_shape {p : List Char} {j : Nat} {e : SudokuError}
    (hj : j < 81) (h : checkCell p j = some e) :
    (∃ s cnt row, e = .rowConflict s cnt row ∧ isClue s = true ∧ 2 ≤ cnt ∧
      1 ≤ row ∧ row ≤ 9 ∧ cnt = countEq (rowSlice p (row - 1)) s) ∨
    (∃ s cnt col, e = .colConflict s cnt col ∧ isClue s = true ∧ 2 ≤ cnt ∧
      1 ≤ col ∧ col ≤ 9 ∧ cnt = countEq (colSlice p (col - 1)) s) ∨
    (∃ s cnt, e = .sqConflict s cnt ∧ isClue s = true ∧ 2 ≤ cnt ∧
      ∃ row col, row < 9 ∧ col < 9 ∧ cnt = countEq (sqSlice p row col) s) := by
  simp only [checkCell] at h
  split at h
  · rename_i hclue
    split_ifs at h with h1 h2 h3
    · cases h
      refine Or.inl ⟨_, _, _, rfl, hclue, by omega, by omega, by omega, ?_⟩
      rw [Nat.add_sub_cancel]
    · cases h
      refine Or.inr (Or.inl ⟨_, _, _, rfl, hclue, by omega, by omega, by omega, ?_⟩)
      rw [Nat.add_sub_cancel]
    · cases h
      exact Or.inr (Or.inr ⟨_, _, rfl, hclue, by omega,
        j / 9, j % 9, by omega, by omega, rfl⟩)
  · exact absurd h (by simp)

/-! ### Clue-agreement congruences (for the non-digit leniency claim) -/

theorem clue_char_iff {p q : List Char} (hp : p.length = 81) (hq : q.length = 81)
    (hA : ∀ i, i < 81 →
      (isClue (p.getD i ' ') = true ∨ isClue (q.getD i ' ') = true) →
      p.getD i ' ' = q.getD i ' ') :
    ∀ j s, isClue s = true → ((p.getD j ' ' = s) ↔ (q.getD j ' ' = s)) := by
  intro j s hs
  by_cases hj : j < 81
  · constructor
    · intro hpj
      rw [← hA j hj (Or.inl (hpj ▸ hs))]
      exact hpj
    · intro hqj
      rw [hA j hj (Or.inr (hqj ▸ hs))]
      exact hqj
  · rw [List.getD_eq_default _ _ (by omega), List.getD_eq_default _ _ (by omega)]


theorem countEq_map_eq {p q : List Char}
    (H : ∀ j s, isClue s = true → ((p.getD j ' ' = s) ↔ (q.getD j ' ' = s))) :
    ∀ (idxs : List Nat) (s : Char), isClue s = true →
      countEq (idxs.map (fun j => p.getD j ' ')) s =
        countEq (idxs.map (fun j => q.getD j ' ')) s := by
  intro idxs s hs
  induction idxs with
  | nil => rfl
  | cons j rest ih =>
    simp only [List.map_cons, countEq, List.countP_cons] at ih ⊢
    rw [ih, decide_eq_decide.mpr (H j s hs)]

theorem checkCell_congr {p q : List Char} (hp : p.length = 81) (hq : q.length = 81)
    (hA : ∀ i, i < 81 →
      (isClue (p.getD i ' ') = true ∨ isClue (q.getD i ' ') = true) →
      p.getD i ' ' = q.getD i ' ') :
    ∀ j, j < 81 → checkCell p j = checkCell q j := by
  intro j hj
  have H := clue_char_iff hp hq hA
  by_cases hc : isClue (p.getD j ' ') = true
  · have hpq : p.getD j ' ' = q.getD j ' ' := hA j hj (Or.inl hc)
    have hrow : countEq (rowSlice p (j / 9)) (p.getD j ' ') =
        countEq (rowSlice q (j / 9)) (p.getD j ' ') :=
      countEq_map_eq H _ _ hc
    have hcol : countEq (colSlice p (j % 9)) (p.getD j ' ') =
        countEq (colSlice q (j % 9)) (p.getD j ' ') :=
      countEq_map_eq H _ _ hc
    have hsq : countEq (sqSlice p (j / 9) (j % 9)) (p.getD j ' ') =
        countEq (sqSlice q (j / 9) (j % 9)) (p.getD j ' ') :=
      countEq_map_eq H _ _ hc
    simp only [checkCell, ← hpq, hc, if_true, hrow, hcol, hsq]
  · have hcq : ¬ isClue (q.getD j ' ') = true := by
      intro hq'
      exact hc ((hA j hj (Or.inr hq')) ▸ hq')
    simp only [checkCell, if_neg hc, if_neg hcq]

theorem validateFrom_congr {p q : List Char}
    (H : ∀ j, j < 81 → checkCell p j = checkCell q j) :
    ∀ {k ndx}, ndx + k ≤ 81 → validateFrom p ndx k = validateFrom q ndx k := by
  intro k
  induction k with
  | zero => intro ndx _; rfl
  | succ k ih =>
    intro ndx hk
    simp only [validateFrom]
    rw [H ndx (by omega)]
    split
    · rfl
    · exact ih (by omega)

/-! ### `eliminate` against the specification's wording -/

theorem hiddenLoop_eq {g : Grid} {poss : Finset ℕ} :
    ∀ l, eliminateLoop g poss l = hiddenSpecLoop g poss l := by
  intro l
  induction l with
  | nil => rfl
  | cons grp rest ih =>
    simp only [eliminateLoop, hiddenSpecLoop]
    by_cases h1 : (poss \ unionList (grp.map (fun v => g v))).card = 1
    · rw [if_pos h1, if_pos h1]
    · rw [if_neg h1, if_neg h1]
      by_cases h2 : fullSet = unionList (grp.map (fun v => g v)) ∪ poss
      · rw [if_neg (fun hh => hh h2),
          if_neg (fun hh => hh (by rw [Finset.union_comm]; exact h2.symm))]
        exact ih
      · rw [if_pos h2, if_pos (fun hh => h2 (by rw [Finset.union_comm] at hh; exact hh.symm))]

theorem solvedPeerDigits_eq {g : Grid} {cell : Nat} :
    unionList ((((adjacents cell).1 ++ (adjacents cell).2.1 ++
        (adjacents cell).2.2).filter (fun v => (g v).card = 1)).map (fun v => g v)) =
      solvedPeerDigits g cell := by
  unfold solvedPeerDigits
  ext a
  simp only [mem_unionList, List.mem_map, List.mem_filter, List.mem_dedup]

theorem eliminate_eq_spec {g : Grid} {cell : Nat} (h : 1 < (g cell).card) :
    eliminate g cell = eliminateSpec g cell := by
  simp only [eliminate, eliminateSpec]
  rw [if_neg (by omega : ¬ (g cell).card = 1)]
  by_cases hemp : ((((adjacents cell).1 ++ (adjacents cell).2.1 ++
      (adjacents cell).2.2).filter (fun v => (g v).card = 1)).map (fun v => g v)).isEmpty
  · have hnil : (((adjacents cell).1 ++ (adjacents cell).2.1 ++
        (adjacents cell).2.2).filter (fun v => (g v).card = 1)).map (fun v => g v) = [] := by
      rwa [← List.isEmpty_iff]
    have hspd : solvedPeerDigits g cell = ∅ := by
      rw [← solvedPeerDigits_eq, hnil]
      rfl
    rw [if_pos hemp, hspd, Finset.sdiff_empty]
    rw [if_neg (fun hh => hh.1 hemp)]
    rw [if_neg (by omega : ¬ (g cell).card = 1)]
    exact hiddenLoop_eq _
  · rw [if_neg hemp, solvedPeerDigits_eq]
    by_cases hcard : (g cell \ solvedPeerDigits g cell).card = 1
    · rw [if_pos ⟨hemp, hcard⟩, if_pos hcard]
    · rw [if_neg (fun hh => hcard hh.2), if_neg hcard]
      exact hiddenLoop_eq _

/-! ### Whole-pipeline congruences under clue agreement -/

theorem strGrid_congr {p q : List Char} (hp : p.length = 81) (hq : q.length = 81)
    (hA : ∀ i, i < 81 →
      (isClue (p.getD i ' ') = true ∨ isClue (q.getD i ' ') = true) →
      p.getD i ' ' = q.getD i ' ') :
    strGrid p true = strGrid q true := by
  funext ndx
  by_cases hn : ndx < 81
  · by_cases hc : isClue (p.getD ndx ' ') = true
    · have hpq : p.getD ndx ' ' = q.getD ndx ' ' := hA ndx hn (Or.inl hc)
      simp only [strGrid, ← hpq]
    · have hcq : ¬ isClue (q.getD ndx ' ') = true := fun hq' =>
        hc ((hA ndx hn (Or.inr hq')) ▸ hq')
      simp only [strGrid, if_neg hc, if_neg hcq]
  · simp only [strGrid, List.getD_eq_default _ _ (show p.length ≤ ndx by omega),
      List.getD_eq_default _ _ (show q.length ≤ ndx by omega)]

theorem validate_congr {p q : List Char} (hp : p.length = 81) (hq : q.length = 81)
    (hA : ∀ i, i < 81 →
      (isClue (p.getD i ' ') = true ∨ isClue (q.getD i ' ') = true) →
      p.getD i ' ' = q.getD i ' ') :
    validate p = validate q := by
  unfold validate
  rw [hp, hq]
  rw [if_neg (fun hh => hh rfl), if_neg (fun hh => hh rfl)]
  exact validateFrom_congr (checkCell_congr hp hq hA) (by omega)

/-! ### Adjacency table lemmas -/

theorem adj_lengths :
    ∀ cell, cell < 81 → (adjacents cell).1.length = 8 ∧
      (adjacents cell).2.1.length = 8 ∧ (adjacents cell).2.2.length = 8 := by
  decide

theorem adj_sorted :
    ∀ cell, cell < 81 → List.Pairwise (· < ·) (adjacents cell).1 ∧
      List.Pairwise (· < ·) (adjacents cell).2.1 ∧
      List.Pairwise (· < ·) (adjacents cell).2.2 := by
  decide

theorem adj_row_col_disjoint :
    ∀ cell, cell < 81 → ∀ j, j ∈ (adjacents cell).1 → j ∉ (adjacents cell).2.1 := by
  decide

theorem mem_adj_row {cell j : Nat} (hcell : cell < 81) :
    j ∈ (adjacents cell).1 ↔ j ≠ cell ∧ j / 9 = cell / 9 ∧ j < 81 := by
  simp only [adjacents, List.mem_filter, List.mem_range', decide_eq_true_eq]
  constructor
  · rintro ⟨⟨i, hi, rfl⟩, hne⟩
    refine ⟨by omega, by omega, by omega⟩
  · rintro ⟨hne, hdiv, hj⟩
    exact ⟨⟨j % 9, by omega, by omega⟩, by omega⟩

theorem mem_adj_col {cell j : Nat} (hcell : cell < 81) :
    j ∈ (adjacents cell).2.1 ↔ j ≠ cell ∧ j % 9 = cell % 9 ∧ j < 81 := by
  simp only [adjacents, List.mem_filter, List.mem_range', decide_eq_true_eq]
  constructor
  · rintro ⟨⟨i, hi, rfl⟩, hne⟩
    refine ⟨by omega, by omega, by omega⟩
  · rintro ⟨hne, hmod, hj⟩
    exact ⟨⟨j / 9, by omega, by omega⟩, by omega⟩

theorem mem_adj_sq {cell j : Nat} (hcell : cell < 81) :
    j ∈ (adjacents cell).2.2 ↔
      j ≠ cell ∧ j / 9 / 3 = cell / 9 / 3 ∧ j % 9 / 3 = cell % 9 / 3 ∧ j < 81 := by
  simp only [adjacents, get_square_indices, List.mem_filter, List.mem_map,
    List.mem_cons, List.not_mem_nil, or_false, decide_eq_true_eq]
  constructor
  · rintro ⟨⟨c, hc, rfl⟩, hne⟩
    rcases hc with rfl | rfl | rfl | rfl | rfl | rfl | rfl | rfl | rfl <;>
      refine ⟨by omega, by omega, by omega, by omega⟩
  · rintro ⟨hne, h1, h2, hj⟩
    refine ⟨⟨j - ((cell / 9 / 3) * 9 * 3 + (cell % 9 / 3) * 3), by omega, by omega⟩,
      by omega⟩

/-! ### Claim theorems -/

/-- Claim C1, counterexample. The claim states that whenever `search`
returns a grid rather than the failure signal, every one of the 81 cells
holds exactly one candidate. On `gC1` the reduction is a no-op, cell 0 is
the only multi-candidate cell, and the branching scan's falsy test
`if not min_cell` treats the index 0 like `None`, so `search` returns
`gC1` itself as a "solution" although cell 0 still has two candidates. -/
theorem c1_counterexample :
    (search idShuffle gC1 false 0 0).1 = some gC1 ∧ (gC1 0).card = 2 :=
  ⟨rfl, by decide⟩

/-- Claim C1, amended: whenever `search` on a grid whose cells are all
non-empty returns a grid, every cell of index 1..80 holds exactly one
candidate — cell 0 may keep several (the falsy index-0 defect); and after
`reduceGrid` succeeds, `search` returns the grid as the solution exactly
when no cell of index 1..80 has more than one candidate. -/
theorem c1_search_solution_shape :
    (∀ (sh : List ℕ → List ℕ) (g : Grid) (r : Bool) (d gm : Nat)
      (sol : Grid) (gm2 : Nat),
      (∀ i, i < 81 → g i ≠ ∅) →
      search sh g r d gm = (some sol, gm2) →
      ∀ i, 1 ≤ i → i < 81 → (sol i).card = 1) ∧
    (∀ g' : Grid, (minScan g' = none ∨ minScan g' = some 0) ↔
      ∀ i, 1 ≤ i → i < 81 → ¬ 1 < (g' i).card) := by
  constructor
  · intro sh g r d gm sol gm2 hne h
    exact (search_success hne h).2
  · intro g'
    constructor
    · intro hms i hi1 hi2
      rcases minScan_cases g' with ⟨heq, hcard⟩ | ⟨heq, -, hcard⟩ | ⟨c, heq, hc1, -⟩
      · exact hcard i hi2
      · exact hcard i hi1 hi2
      · rcases hms with hms | hms <;> rw [hms] at heq <;> simp at heq
        omega
    · intro hall
      rcases minScan_cases g' with ⟨heq, -⟩ | ⟨heq, -, -⟩ | ⟨c, heq, hc1, hc2, hc3, -⟩
      · exact Or.inl heq
      · exact Or.inr heq
      · exact absurd hc3 (hall c hc1 hc2)

/-- Claim C1, witness for the amended theorem at the solved grid
`gAll1`. -/
theorem c1_witness :
    (gAll1 5).card = 1 ∧ (minScan gAll1 = none ∨ minScan gAll1 = some 0) :=
  ⟨c1_search_solution_shape.1 idShuffle gAll1 false 0 0 gAll1 0 (by decide) rfl
      5 (by omega) (by omega),
    (c1_search_solution_shape.2 gAll1).mpr (by decide)⟩

/-- Claim C2: a structurally valid puzzle with no solution. `validate`
accepts `p2`, and `search` returns the failure signal (`False` in the
source, `none` here). The source's `solve` then evaluates
`grid_to_str(False)`, whose first step `False[0]` raises a `TypeError`
instead of returning the failure sentinel the specification (and the
caller in `__main__`, which tests `elif not solution:`) expects. The
model's guarded serialization makes the failure value visible as
`.ok none`. -/
theorem c2_unsat_puzzle_behavior :
    validate p2 = .ok true ∧
    (search idShuffle gP2 false 0 0).1 = none ∧
    solve idShuffle p2 false = .ok none :=
  ⟨rfl, rfl, rfl⟩

/-- Claim C3, counterexample. The claim states that in `search`'s scan a
cell already holding the running minimum is never replaced by a later
cell with an equal candidate count, so the branching cell is the
lowest-indexed minimum. On `gC3` (a `reduce_grid` fixpoint) cells 0 and 5
both hold two candidates, yet the scan answers cell 5: the falsy test
`if not min_cell` discards the running minimum held at index 0. -/
theorem c3_counterexample :
    reduce_grid gC3 = some gC3 ∧ minScan gC3 = some 5 ∧
    (gC3 0).card = 2 ∧ (gC3 5).card = 2 :=
  ⟨rfl, rfl, by decide, by decide⟩

/-- Claim C3, amended: when cell 0 is solved the scan does select the
lowest-indexed cell of minimum candidate count among all multi-candidate
cells; when the scan answers a nonzero cell, that cell is the
lowest-indexed cell achieving the minimum count among the multi-candidate
cells of index 1..80 — cell 0 is excluded by the falsy index-0 test. -/
theorem c3_branch_cell_selection :
    (∀ (g : Grid) (c : Nat), ¬ 1 < (g 0).card → minScan g = some c →
      c < 81 ∧ 1 < (g c).card ∧
      (∀ j, j < 81 → 1 < (g j).card → (g c).card ≤ (g j).card) ∧
      (∀ j, j < c → 1 < (g j).card → (g c).card < (g j).card)) ∧
    (∀ (g : Grid) (c : Nat), minScan g = some c → c ≠ 0 →
      1 ≤ c ∧ c < 81 ∧ 1 < (g c).card ∧
      (∀ j, 1 ≤ j → j < 81 → 1 < (g j).card → (g c).card ≤ (g j).card) ∧
      (∀ j, 1 ≤ j → j < c → 1 < (g j).card → (g c).card < (g j).card)) := by
  constructor
  · intro g c h0 hms
    rcases minScan_cases g with ⟨heq, -⟩ | ⟨-, h0', -⟩ | ⟨c', heq, hc1, hc2, hc3, hc4, hc5⟩
    · rw [hms] at heq; exact absurd heq (by simp)
    · exact absurd h0' h0
    · rw [hms] at heq
      have hcc : c = c' := by simpa using heq
      subst hcc
      refine ⟨hc2, hc3, fun j hj1 hj2 => ?_, fun j hj1 hj2 => ?_⟩
      · rcases Nat.eq_zero_or_pos j with rfl | hj0
        · exact absurd hj2 h0
        · exact hc4 j hj0 hj1 hj2
      · rcases Nat.eq_zero_or_pos j with rfl | hj0
        · exact absurd hj2 h0
        · exact hc5 j hj0 hj1 hj2
  · intro g c hms hc0
    rcases minScan_cases g with ⟨heq, -⟩ | ⟨heq, -, -⟩ | ⟨c', heq, hc1, hc2, hc3, hc4, hc5⟩
    · rw [hms] at heq; exact absurd heq (by simp)
    · rw [hms] at heq
      exact absurd (by simpa using heq) hc0
    · rw [hms] at heq
      have hcc : c = c' := by simpa using heq
      subst hcc
      exact ⟨hc1, hc2, hc3, hc4, hc5⟩

/-- Claim C3, witness for the amended theorem at a grid whose only
multi-candidate cell is cell 1. -/
theorem c3_witness :
    1 ≤ 1 ∧ 1 < (gC3W 1).card :=
  ⟨(c3_branch_cell_selection.2 gC3W 1 rfl (by decide)).1,
    (c3_branch_cell_selection.2 gC3W 1 rfl (by decide)).2.2.1⟩

/-- Claim C4, counterexample. The claim states that every conflict error
carries the 1-based index of the group, in particular which of the nine
boxes holds the duplicate. The square conflict message
`'{0} appears {1}x in a square'` carries no index: a duplicate 9 in the
first box (`pBoxA`) and one in the ninth box (`pBoxB`) produce the very
same error value, so the error cannot identify the box. -/
theorem c4_counterexample :
    validate pBoxA = .error (.sqConflict '9' 2) ∧
    validate pBoxB = .error (.sqConflict '9' 2) ∧ pBoxA ≠ pBoxB :=
  ⟨rfl, rfl, by decide⟩

/-- Claim C4, amended: every error raised by `validate` is either the
length failure carrying the actual length, or a conflict carrying the
duplicated clue digit and its occurrence count (at least 2) in the
offending group; row and column conflicts carry the 1-based group index,
while a square conflict carries digit and count only — the box index is
not reported. -/
theorem c4_conflict_payload :
    ∀ (p : List Char) (e : SudokuError), validate p = .error e →
      (e = .wrongLength p.length ∧ p.length ≠ 81) ∨
      (∃ s cnt row, e = .rowConflict s cnt row ∧ isClue s = true ∧ 2 ≤ cnt ∧
        1 ≤ row ∧ row ≤ 9 ∧ cnt = countEq (rowSlice p (row - 1)) s) ∨
      (∃ s cnt col, e = .colConflict s cnt col ∧ isClue s = true ∧ 2 ≤ cnt ∧
        1 ≤ col ∧ col ≤ 9 ∧ cnt = countEq (colSlice p (col - 1)) s) ∨
      (∃ s cnt, e = .sqConflict s cnt ∧ isClue s = true ∧ 2 ≤ cnt ∧
        ∃ row col, row < 9 ∧ col < 9 ∧ cnt = countEq (sqSlice p row col) s) := by
  intro p e h
  unfold validate at h
  split at h
  · rename_i hlen
    cases h
    exact Or.inl ⟨rfl, hlen⟩
  · obtain ⟨j, -, hj81, hchk⟩ := validateFrom_error h
    exact Or.inr (checkCell_shape (by omega) hchk)

/-- Claim C4, witness for the amended theorem at the fixture
`'1..1' + 77 blanks`. -/
theorem c4_witness :
    ((.rowConflict '1' 2 1 : SudokuError) = .wrongLength pRow.length ∧
      pRow.length ≠ 81) ∨
    (∃ s cnt row, (.rowConflict '1' 2 1 : SudokuError) = .rowConflict s cnt row ∧
      isClue s = true ∧ 2 ≤ cnt ∧ 1 ≤ row ∧ row ≤ 9 ∧
      cnt = countEq (rowSlice pRow (row - 1)) s) ∨
    (∃ s cnt col, (.rowConflict '1' 2 1 : SudokuError) = .colConflict s cnt col ∧
      isClue s = true ∧ 2 ≤ cnt ∧ 1 ≤ col ∧ col ≤ 9 ∧
      cnt = countEq (colSlice pRow (col - 1)) s) ∨
    (∃ s cnt, (.rowConflict '1' 2 1 : SudokuError) = .sqConflict s cnt ∧
      isClue s = true ∧ 2 ≤ cnt ∧
      ∃ row col, row < 9 ∧ col < 9 ∧ cnt = countEq (sqSlice pRow row col) s) :=
  c4_conflict_payload pRow (.rowConflict '1' 2 1) rfl

/-- Claim C5, counterexample. The claim states the cutoff depends only on
the call's own depth and the process-scoped counter is purely diagnostic.
The source tests the updated global counter (`max_depth > 81`), not
`depth`: with the counter at 82 a depth-0 call on the trivially solvable
grid `gAll1` fails, while the same call with the counter at 0 solves it. -/
theorem c5_counterexample :
    (search idShuffle gAll1 false 0 82).1 = none ∧
    (search idShuffle gAll1 false 0 0).1 = some gAll1 :=
  ⟨rfl, rfl⟩

/-- Claim C5, amended: `search` aborts before running `reduceGrid`
exactly when the updated counter `max gmax depth` exceeds 81 — so a depth
above 81 always aborts, an incoming counter above 81 also aborts calls of
any depth, and when the updated counter is at most 81 the cutoff does not
fire and the body (reduction, scan, branching) runs. -/
theorem c5_cutoff_behavior :
    (∀ (sh : List ℕ → List ℕ) (g : Grid) (r : Bool) (d gm : Nat),
      81 < d → search sh g r d gm = (none, max gm d)) ∧
    (∀ (sh : List ℕ → List ℕ) (g : Grid) (r : Bool) (d gm : Nat),
      81 < gm → search sh g r d gm = (none, max gm d)) ∧
    (∀ (sh : List ℕ → List ℕ) (g : Grid) (r : Bool) (d gm : Nat),
      max gm d ≤ 81 → search sh g r d gm = searchCore sh g r d gm) :=
  ⟨fun _ _ _ _ _ h => search_depth_cutoff h,
    fun _ _ _ _ _ h => search_gmax_cutoff h,
    fun _ _ _ _ _ h => search_no_cutoff h⟩

/-- Claim C5, witness for the amended theorem: a depth-82 call and a
counter-82 call abort; a counter-0 depth-0 call runs the body. -/
theorem c5_witness :
    search idShuffle gAll1 false 82 0 = (none, max 0 82) ∧
    search idShuffle gAll1 false 0 82 = (none, max 82 0) ∧
    search idShuffle gAll1 false 0 0 = searchCore idShuffle gAll1 false 0 0 :=
  ⟨c5_cutoff_behavior.1 idShuffle gAll1 false 82 0 (by omega),
    c5_cutoff_behavior.2.1 idShuffle gAll1 false 0 82 (by omega),
    c5_cutoff_behavior.2.2 idShuffle gAll1 false 0 0 (by omega)⟩

/-- Claim C6, counterexample. The claim states the three peer lists are
pairwise disjoint, but the row list and the square list of cell 0 share
cell 1 (each shares two cells with the square list). -/
theorem c6_counterexample :
    1 ∈ (adjacents 0).1 ∧ 1 ∈ (adjacents 0).2.2 := by
  decide

/-- Claim C6, amended: for every cell the adjacency entry holds three
ordered (strictly increasing) lists of length 8 — the other cells of the
row, of the column, and of the square; the row and column lists are
disjoint, but the square list overlaps each of them. -/
theorem c6_adjacency_table :
    ∀ cell, cell < 81 →
      ((adjacents cell).1.length = 8 ∧ (adjacents cell).2.1.length = 8 ∧
        (adjacents cell).2.2.length = 8) ∧
      (∀ j,
        ((j ∈ (adjacents cell).1 ↔ (j ≠ cell ∧ j / 9 = cell / 9 ∧ j < 81)) ∧
          (j ∈ (adjacents cell).2.1 ↔ (j ≠ cell ∧ j % 9 = cell % 9 ∧ j < 81)) ∧
          (j ∈ (adjacents cell).2.2 ↔ (j ≠ cell ∧ j / 9 / 3 = cell / 9 / 3 ∧
            j % 9 / 3 = cell % 9 / 3 ∧ j < 81)))) ∧
      (∀ j, j ∈ (adjacents cell).1 → j ∉ (adjacents cell).2.1) ∧
      List.Pairwise (· < ·) (adjacents cell).1 ∧
      List.Pairwise (· < ·) (adjacents cell).2.1 ∧
      List.Pairwise (· < ·) (adjacents cell).2.2 :=
  fun cell h =>
    ⟨adj_lengths cell h,
      fun j => ⟨mem_adj_row h, mem_adj_col h, mem_adj_sq h⟩,
      adj_row_col_disjoint cell h,
      (adj_sorted cell h).1, (adj_sorted cell h).2.1, (adj_sorted cell h).2.2⟩

/-- Claim C6, witness for the amended theorem at cell 0. -/
theorem c6_witness :
    (adjacents 0).1.length = 8 ∧ (adjacents 0).2.1.length = 8 ∧
      (adjacents 0).2.2.length = 8 :=
  (c6_adjacency_table 0 (by omega)).1

/-- Claim C7: every cell's candidate set is non-empty at every point of a
solve — in the initial grid built with full candidates, across every
update `reduce_grid` applies (one reduction step maps a grid with
non-empty cells to a grid with non-empty cells: the falsy test
`if not results` turns an empty elimination result into failure before it
is stored), in `reduce_grid`'s result, and in every branch grid `search`
creates by fixing a branching cell to a singleton. -/
theorem c7_no_empty_cells :
    (∀ p g, str_to_grid p true = some g → ∀ i, i < 81 → g i ≠ ∅) ∧
    (∀ (g : Grid) cell k g', onePass g cell k = .changed g' →
      (∀ i, i < 81 → g i ≠ ∅) → ∀ i, i < 81 → g' i ≠ ∅) ∧
    (∀ (g g' : Grid), reduce_grid g = some g' →
      (∀ i, i < 81 → g i ≠ ∅) → ∀ i, i < 81 → g' i ≠ ∅) ∧
    (∀ (g' : Grid) (m : Nat) (x : ℕ), (∀ i, i < 81 → g' i ≠ ∅) →
      ∀ i, i < 81 → updateG g' m {x} i ≠ ∅) := by
  refine ⟨?_, ?_, ?_, ?_⟩
  · intro p g h i _
    unfold str_to_grid at h
    split at h
    · exact absurd h (by simp)
    · cases h
      simp only [strGrid]
      split
      · exact Finset.singleton_ne_empty _
      · simp [fullSet]
  · intro g cell k g' hpass hne
    exact onePass_changed_nonempty hpass hne
  · intro g g' hred hne
    exact reduce_grid_nonempty hred hne
  · intro g' m x hne i hi
    by_cases him : i = m
    · subst him
      rw [updateG_self]
      exact Finset.singleton_ne_empty _
    · rw [updateG_ne _ _ _ him]
      exact hne i hi

/-- Claim C7, witness: the three invariant statements applied at the
all-blank puzzle's grid, a one-step reduction, and the solved grid. -/
theorem c7_witness :
    strGrid dots81 true 0 ≠ ∅ ∧ gAll1 7 ≠ ∅ ∧ updateG gAll1 3 {5} 3 ≠ ∅ :=
  ⟨c7_no_empty_cells.1 dots81 (strGrid dots81 true) rfl 0 (by omega),
    c7_no_empty_cells.2.2.1 gAll1 gAll1 rfl (by decide) 7 (by omega),
    c7_no_empty_cells.2.2.2 gAll1 3 5 (by decide) 3 (by omega)⟩

/-- Claim C8: on every cell with more than one candidate, `eliminate`
computes exactly the procedure the specification describes — subtract the
solved peers' digits (union over the deduplicated row/column/box peers),
return a naked single immediately without any hidden-single check,
otherwise examine the groups in row, column, box order, returning the
first unique digit, failing as soon as a group's union with the reduced
candidates misses a digit, and returning the step-1-reduced candidates
unchanged when nothing fires. -/
theorem c8_eliminate_refines_spec :
    ∀ (g : Grid) (cell : Nat), 1 < (g cell).card →
      eliminate g cell = eliminateSpec g cell :=
  fun _ _ h => eliminate_eq_spec h

/-- Claim C8, witness at the full grid (every cell `{1,...,9}`). -/
theorem c8_witness :
    eliminate gFull 0 = eliminateSpec gFull 0 :=
  c8_eliminate_refines_spec gFull 0 (by decide)

/-- Claim C9: two 81-character puzzles with the same clue digits at the
same positions (and arbitrary non-digit characters elsewhere) get the
same outcome from `validate` and the same result from `solve` with the
same randomize flag: only the digit characters matter. -/
theorem c9_nondigit_leniency :
    ∀ (p q : List Char), p.length = 81 → q.length = 81 →
      (∀ i, i < 81 →
        (isClue (p.getD i ' ') = true ∨ isClue (q.getD i ' ') = true) →
        p.getD i ' ' = q.getD i ' ') →
      validate p = validate q ∧
        ∀ (sh : List ℕ → List ℕ) (r : Bool), solve sh p r = solve sh q r := by
  intro p q hp hq hA
  have hv := validate_congr hp hq hA
  have hsg : str_to_grid p true = str_to_grid q true := by
    unfold str_to_grid
    rw [hp, hq, strGrid_congr hp hq hA]
  refine ⟨hv, fun sh r => ?_⟩
  unfold solve
  rw [hv, hsg]

/-- Claim C9, witness: the all-blank puzzle against the same puzzle with
one blank replaced by a letter. -/
theorem c9_witness :
    validate dots81 = validate pLetter ∧
    solve idShuffle dots81 false = solve idShuffle pLetter false :=
  ⟨(c9_nondigit_leniency dots81 pLetter (by decide) (by decide) (by decide)).1,
    (c9_nondigit_leniency dots81 pLetter (by decide) (by decide) (by decide)).2
      idShuffle false⟩

/-- Claim C10: a successful `eliminate` returns a subset of the cell's
candidates, and a successful `reduce_grid` leaves every cell with a
subset of its previous candidates — a strict subset wherever the cell
changed; candidates are never added. -/
theorem c10_monotone_reduction :
    (∀ (g : Grid) (cell : Nat) (s : Finset ℕ),
      eliminate g cell = some s → s ⊆ g cell) ∧
    (∀ (g g' : Grid), reduce_grid g = some g' →
      ∀ i, g' i ⊆ g i ∧ (g' i ≠ g i → g' i ⊂ g i)) := by
  refine ⟨fun g cell s h => eliminate_subset h, fun g g' h i => ?_⟩
  have hsub := reduce_grid_subset h i
  exact ⟨hsub, fun hne => Finset.ssubset_iff_subset_ne.mpr ⟨hsub, hne⟩⟩

set_option maxRecDepth 40000 in
/-- Claim C10, witness: `eliminate` at the full grid and `reduce_grid` at
the solved grid. -/
theorem c10_witness :
    fullSet ⊆ gFull 0 ∧ gAll1 3 ⊆ gAll1 3 :=
  ⟨c10_monotone_reduction.1 gFull 0 fullSet rfl,
    (c10_monotone_reduction.2 gAll1 gAll1 rfl 3).1⟩

end Sudoku
